import Mathlib

/-!
# Verification of the supermemory local backend (`src/local-backend/server.js`)

Shallow embedding of the JSON-database local backend: the persistent store
(tag-partitioned record lists), the ranking engine (tokenize / calculateScore /
searchMemories / generateProfile), the access-control layer (validateAuth,
CORS origin check) and the request router (handleRequest).

Modelling conventions:
* JS strings are Lean `String`s (the inputs of interest are ASCII, where JS
  UTF-16 `length` and Lean codepoint `length` agree).
* ISO timestamp strings are modelled as a `Nat` clock value `now`; only
  equality/ordering of timestamps matters to the spec.
* JS numbers used as scores are modelled as `ℚ`: every score is `m / q` with
  `0 ≤ m ≤ q` small integers, a range on which IEEE-754 double rounding is
  injective and monotone, so comparisons and the `x / x = 1` renormalisation
  agree exactly with the JS floats.
* `Array.prototype.sort` with comparator `(a, b) => b.score - a.score` is the
  stable descending sort (stability is mandated by ES2019); the stable sort of
  a list for a total preorder is unique, so it is embedded as Mathlib's
  `List.insertionSort` with relation `fun a b => b.score ≤ a.score`.
* `crypto.randomUUID()` and `new Date()` are modelled as explicit `freshId` /
  `now` parameters; `saveDb` (the flush) is modelled by the returned store
  being the new persistent state.
* The `timing` field of a search response (wall-clock milliseconds) is omitted.
-/

namespace Supermemory

/-- JSON scalar values allowed in a record's `metadata` map. -/
inductive MetaVal where
  | str (s : String)
  | num (n : Int)
  | boolean (b : Bool)
deriving DecidableEq

/-- `metadata`: a JS object mapping string keys to scalar values. -/
abbrev Metadata := List (String × MetaVal)

/-- A memory record as stored in the JSON database (`db.memories[tag]` entries). -/
structure MemoryRecord where
  id : String
  content : String
  title : Option String
  metadata : Metadata
  createdAt : Nat
  updatedAt : Nat
  deleted : Bool
deriving DecidableEq

/-- The in-memory database: `db.memories` is a JS object, i.e. an
insertion-ordered collection of distinct tag keys, each holding an array of
records.  (`db.profiles` is never read by the handlers and is omitted.) -/
structure DB where
  memories : List (String × List MemoryRecord)
deriving DecidableEq

/-- `db.memories[containerTag] || []`. -/
def getTag (db : DB) (tag : String) : List MemoryRecord :=
  (db.memories.lookup tag).getD []

/-- Write a tag's record array back: update the first (unique) occurrence of
the key, or append the key at the end as JS property creation does. -/
def updateTag : List (String × List MemoryRecord) → String → List MemoryRecord →
    List (String × List MemoryRecord)
  | [], tag, l => [(tag, l)]
  | (t, v) :: rest, tag, l =>
      if t = tag then (t, l) :: rest else (t, v) :: updateTag rest tag l

def setTag (db : DB) (tag : String) (l : List MemoryRecord) : DB :=
  ⟨updateTag db.memories tag l⟩

/-! ## JS helpers -/

/-- JS regex `\w` (no `u` flag): `[A-Za-z0-9_]`. -/
def jsWordChar (c : Char) : Bool :=
  c.isAlphanum || c = '_'

/-- JS whitespace class `\s` restricted to the characters that occur here. -/
def jsWS (c : Char) : Bool :=
  c.isWhitespace

/-- `String.prototype.trim`: drop leading then trailing whitespace. -/
def jsTrim (s : String) : String :=
  (List.rdropWhile jsWS (s.data.dropWhile jsWS)).asString

/-- `String.prototype.toLowerCase` (ASCII). -/
def jsLowerStr (s : String) : String :=
  (s.data.map Char.toLower).asString

/-- `falsyOr`: JS `x || d` for an optional string field (absent or `""` is falsy). -/
def jsOrDefault (o : Option String) (d : String) : String :=
  match o with
  | none => d
  | some s => if s = "" then d else s

/-- `Array.prototype.slice(0, e)` with a possibly negative end index. -/
def jsSliceEnd (l : List α) (e : Int) : List α :=
  let len : Int := l.length
  let fin : Int := if e < 0 then max (len + e) 0 else min e len
  l.take fin.toNat

/-- `Array.prototype.slice(s)` with a possibly negative start index. -/
def jsSliceFrom (l : List α) (s : Int) : List α :=
  let len : Int := l.length
  let st : Int := if s < 0 then max (len + s) 0 else min s len
  l.drop st.toNat

/-! ## Ranking engine -/

/-- `tokenize(text)`: lowercase, replace `[^\w\s]` by spaces, split on `\s+`,
keep tokens longer than 2 characters.  The surviving tokens are exactly the
maximal runs of word characters of the lowercased text. -/
def tokenize (text : String) : List String :=
  if text = "" then []
  else
    (((text.data.map Char.toLower).splitOnP (fun c => !jsWordChar c)).map
        List.asString).filter (fun t => t.length > 2)

/-- `calculateScore(queryTokens, docTokens)`: 0 when either side is empty,
else the number of query-token occurrences found in the document's token set,
divided by the total number of query tokens. -/
def calculateScore (queryTokens docTokens : List String) : ℚ :=
  if queryTokens.length = 0 ∨ docTokens.length = 0 then 0
  else
    ((queryTokens.countP fun t => docTokens.contains t : Nat) : ℚ) /
      (queryTokens.length : ℚ)

/-- One entry of a search response (`timing` omitted; `memory` duplicates
`content` in the JS response and is dropped as redundant). -/
structure SearchResult where
  id : String
  content : String
  title : Option String
  similarity : ℚ
  metadata : Metadata
  createdAt : Nat
  updatedAt : Nat
deriving DecidableEq

structure SearchResponse where
  results : List SearchResult
  total : Nat
deriving DecidableEq

/-- The comparator `(a, b) => b.score - a.score` as a binary relation: `a` may
precede `b` iff `b.score ≤ a.score`. -/
def scoreGE (a b : MemoryRecord × ℚ) : Prop :=
  b.2 ≤ a.2

instance : DecidableRel scoreGE := fun a b => inferInstanceAs (Decidable (b.2 ≤ a.2))

/-- `searchMemories(db, containerTag, query, limit)`. -/
def searchMemories (db : DB) (containerTag : String) (query : String)
    (limit : Int) : SearchResponse :=
  let memories := getTag db containerTag
  if memories.length = 0 then ⟨[], 0⟩
  else
    let queryTokens := tokenize query
    let scored := memories.filterMap fun m =>
      if m.deleted then none
      else
        let score := calculateScore queryTokens (tokenize m.content)
        if 0 < score then some (m, score) else none
    let sorted := List.insertionSort scoreGE scored
    let topResults := jsSliceEnd sorted limit
    let maxScore : ℚ := match topResults.head? with
      | some r => r.2
      | none => 1
    ⟨topResults.map fun r =>
        ⟨r.1.id, r.1.content, r.1.title, r.2 / maxScore, r.1.metadata,
          r.1.createdAt, r.1.updatedAt⟩,
      scored.length⟩

/-! ## Profile generation -/

/-- One `staticFacts.add` / `dynamicFacts.add` step of `generateProfile`:
`if (match[1] && facts.size < 10) facts.add(match[1].trim())`.  A JS `Set`
keyed by insertion order is a duplicate-free list. -/
def addFact (facts : List String) (raw : String) : List String :=
  if raw ≠ "" ∧ facts.length < 10 then
    if jsTrim raw ∈ facts then facts else facts ++ [jsTrim raw]
  else facts

/-- `generateProfile(db, containerTag)`.

The two regular-expression families (`STATIC_PATTERNS`, `DYNAMIC_PATTERNS`)
are abstracted as parameters `sCaps`/`dCaps` mapping a content string to the
list of raw captured groups (`match[1]`) its patterns produce, in match order;
every property proved below holds for *every* such capture function, hence in
particular for the JS regex engine's.  The aggregation logic (last 50
non-deleted records, per-record capture loop, truthiness test, trim,
set-insertion, cap of 10) is translated directly. -/
def generateProfile (sCaps dCaps : String → List String) (db : DB)
    (containerTag : String) : List String × List String :=
  let memories := getTag db containerTag
  let recent := jsSliceFrom (memories.filter fun m => !m.deleted) (-50)
  if recent.length = 0 then ([], [])
  else
    recent.foldl
      (fun st m =>
        ((sCaps m.content).foldl addFact st.1,
         (dCaps m.content).foldl addFact st.2))
      ([], [])

/-! ## API handlers -/

/-- The parsed JSON request body: one object, destructured per handler.
A field is `none` when absent from the JSON. -/
structure ReqBody where
  content : Option String := none
  containerTag : Option String := none
  containerTags : Option (Sum String (List String)) := none
  metadata : Option Metadata := none
  customId : Option String := none
  q : Option String := none
  limit : Option Int := none
deriving DecidableEq

/-- `extractTitle(content, 100)`. -/
def extractTitle (content : String) : Option String :=
  if content = "" then none
  else
    let firstLine := jsTrim (content.data.takeWhile (· ≠ '\n')).asString
    if firstLine.length ≤ 100 then some firstLine
    else some ((firstLine.data.take 100).asString ++ "...")

/-- `handleAdd(db, body)`; `freshId` models `crypto.randomUUID()`, `now` the
current clock.  Errors are `(message, HTTP status)`. -/
def handleAdd (db : DB) (body : ReqBody) (freshId : String) (now : Nat) :
    Except (String × Nat) (DB × String) :=
  match body.content with
  | none => .error ("content is required", 400)
  | some content =>
    if content = "" then .error ("content is required", 400)
    else
      let tag := jsOrDefault body.containerTag "default"
      let id := jsOrDefault body.customId freshId
      let newRec : MemoryRecord :=
        { id := id, content := content, title := extractTitle content,
          metadata := body.metadata.getD [], createdAt := now,
          updatedAt := now, deleted := false }
      .ok (setTag db tag (getTag db tag ++ [newRec]), id)

/-- `handleSearchMemories(db, body)`: requires `q`, defaults the tag and the
limit (10), and clamps the limit with `Math.min(limit, 50)`. -/
def handleSearchMemories (db : DB) (body : ReqBody) :
    Except (String × Nat) SearchResponse :=
  match body.q with
  | none => .error ("q is required", 400)
  | some q =>
    if q = "" then .error ("q is required", 400)
    else
      .ok (searchMemories db (jsOrDefault body.containerTag "default") q
        (min (body.limit.getD 10) 50))

/-- A record as projected by `handleListMemories` (no `deleted` field). -/
structure ListedMemory where
  id : String
  content : String
  title : Option String
  metadata : Metadata
  createdAt : Nat
  updatedAt : Nat
deriving DecidableEq

/-- `Array.isArray(containerTags) ? containerTags[0] : containerTags || 'default'`.
Indexing an empty JS array yields `undefined`, which as a property key is the
string `"undefined"`. -/
def listTagOf : Option (Sum String (List String)) → String
  | none => "default"
  | some (.inl s) => jsOrDefault (some s) "default"
  | some (.inr l) => l.head?.getD "undefined"

/-- `handleListMemories(db, body)`: default limit 20, filter out deleted,
`slice(-limit)`, reverse (newest first), project. -/
def handleListMemories (db : DB) (body : ReqBody) : List ListedMemory :=
  let tag := listTagOf body.containerTags
  let limit := body.limit.getD 20
  ((jsSliceFrom ((getTag db tag).filter fun m => !m.deleted) (-limit)).reverse).map
    fun m => ⟨m.id, m.content, m.title, m.metadata, m.createdAt, m.updatedAt⟩

/-- `handleProfile(db, body)` (capture functions threaded as in
`generateProfile`). -/
def handleProfile (sCaps dCaps : String → List String) (db : DB)
    (body : ReqBody) :
    Except (String × Nat) ((List String × List String) × Option SearchResponse) :=
  match body.containerTag with
  | none => .error ("containerTag is required", 400)
  | some tag =>
    if tag = "" then .error ("containerTag is required", 400)
    else
      let profile := generateProfile sCaps dCaps db tag
      let searchResults :=
        match body.q with
        | none => none
        | some q => if q = "" then none else some (searchMemories db tag q 5)
      .ok (profile, searchResults)

/-- `db.memories[tag].find(m => m.id === id)` followed by the in-place
mutation: mark the first record with this id (deleted or not) as deleted and
stamp `updatedAt`. -/
def markFirst (l : List MemoryRecord) (id : String) (now : Nat) :
    Option (List MemoryRecord) :=
  match l with
  | [] => none
  | m :: rest =>
    if m.id = id then some ({ m with deleted := true, updatedAt := now } :: rest)
    else (markFirst rest id now).map (m :: ·)

/-- The `for (const tag of Object.keys(db.memories))` loop of
`handleDeleteMemory`: first tag containing a record with the id wins. -/
def deleteInTags (tags : List (String × List MemoryRecord)) (id : String)
    (now : Nat) : Option (List (String × List MemoryRecord)) :=
  match tags with
  | [] => none
  | (t, l) :: rest =>
    match markFirst l id now with
    | some l2 => some ((t, l2) :: rest)
    | none => (deleteInTags rest id now).map ((t, l) :: ·)

/-- `handleDeleteMemory(db, id)`. -/
def handleDeleteMemory (db : DB) (id : String) (now : Nat) :
    Except (String × Nat) DB :=
  match deleteInTags db.memories id now with
  | some m => .ok ⟨m⟩
  | none => .error ("Memory not found", 404)

/-! ## Access control and router -/

/-- `authHeader.split(' ')` for the single-character JS separator. -/
def splitOnChar (sep : Char) (s : String) : List String :=
  (s.data.splitOnP (fun c => c = sep)).map List.asString

/-- `validateAuth(req)`: header present (truthy), exactly two space-separated
parts, case-insensitive `bearer` scheme, length check, then the constant-time
byte comparison (equal-length buffers compare equal iff the strings are
equal). -/
def validateAuth (authHeader : Option String) (authToken : String) : Bool :=
  match authHeader with
  | none => false
  | some h =>
    if h = "" then false
    else
      match splitOnChar ' ' h with
      | [scheme, tok] =>
        if jsLowerStr scheme ≠ "bearer" then false
        else if tok.length ≠ authToken.length then false
        else tok = authToken
      | _ => false

/-- Hostname of the first `://`-scheme URL, as `new URL(origin).hostname`
computes it for the well-formed origins relevant here; a string with no
`://` makes the `URL` constructor throw, i.e. the origin is rejected. -/
def hostAfterScheme : List Char → Option (List Char)
  | ':' :: '/' :: '/' :: rest => some (rest.takeWhile fun c => c ≠ ':' && c ≠ '/')
  | _ :: rest => hostAfterScheme rest
  | [] => none

/-- `isAllowedOrigin(origin)`: absent origin allowed; else hostname must be
`localhost` or `127.0.0.1`. -/
def isAllowedOrigin (origin : Option String) : Bool :=
  match origin with
  | none => true
  | some o =>
    match hostAfterScheme o.data with
    | some h => h.asString = "localhost" || h.asString = "127.0.0.1"
    | none => false

/-- `getCorsOrigin(origin)`. -/
def getCorsOrigin (origin : Option String) : Option String :=
  match origin with
  | none => none
  | some o => if isAllowedOrigin (some o) then some o else none

/-- An inbound HTTP request; `body = none` models a body `parseBody` rejects
(malformed JSON). -/
structure HttpRequest where
  method : String
  pathname : String
  origin : Option String := none
  authorization : Option String := none
  body : Option ReqBody := none
deriving DecidableEq

/-- What the server writes back: HTTP status, plus the `{error}` message for
`sendError` responses (`none` for success bodies). -/
structure Response where
  status : Nat
  error : Option String
deriving DecidableEq

/-- Environment of one request: the stored auth token and the models of
`crypto.randomUUID()` and the clock. -/
structure Env where
  authToken : String
  freshId : String
  now : Nat

/-- `pathname.replace(/^\/v1/, '')`. -/
def stripV1 (p : String) : String :=
  match p.data with
  | '/' :: 'v' :: '1' :: rest => rest.asString
  | _ => p

/-- Turn a handler result into the response `handleRequest` sends:
`result.error` → `sendError(res, result.error, result.status || 400)`,
else `sendJson(res, result, 200)`. -/
def sendOf (r : Except (String × Nat) α) (db : DB) (upd : α → DB) : Response × DB :=
  match r with
  | .error (msg, code) => (⟨code, some msg⟩, db)
  | .ok a => (⟨200, none⟩, upd a)

/-- `handleRequest(db, req, res)`: CORS preflight, `/v1` strip, health-check
exemption, auth gate, route dispatch.  A `POST`/`DELETE` route whose body
`parseBody` rejects is caught at top level as a 500 (`Invalid JSON`). -/
def handleRequest (sCaps dCaps : String → List String) (env : Env) (db : DB)
    (req : HttpRequest) : Response × DB :=
  if req.method = "OPTIONS" then
    match getCorsOrigin req.origin with
    | some _ => (⟨200, none⟩, db)
    | none => (⟨403, none⟩, db)
  else
    let routePath := stripV1 req.pathname
    let isHealthCheck := routePath = "/health" || req.pathname = "/health"
    if !isHealthCheck && !validateAuth req.authorization env.authToken then
      (⟨401, some "Unauthorized - Bearer token required"⟩, db)
    else if (routePath = "/add" || routePath = "/") && req.method = "POST" then
      match req.body with
      | none => (⟨500, some "Invalid JSON"⟩, db)
      | some body => sendOf (handleAdd db body env.freshId env.now) db Prod.fst
    else if routePath = "/profile" && req.method = "POST" then
      match req.body with
      | none => (⟨500, some "Invalid JSON"⟩, db)
      | some body => sendOf (handleProfile sCaps dCaps db body) db fun _ => db
    else if routePath = "/search/memories" && req.method = "POST" then
      match req.body with
      | none => (⟨500, some "Invalid JSON"⟩, db)
      | some body => sendOf (handleSearchMemories db body) db fun _ => db
    else if routePath = "/memories/list" && req.method = "POST" then
      match req.body with
      | none => (⟨500, some "Invalid JSON"⟩, db)
      | some body => sendOf (.ok (handleListMemories db body) :
          Except (String × Nat) (List ListedMemory)) db fun _ => db
    else if List.isPrefixOf "/memories/".data routePath.data &&
        req.method = "DELETE" then
      let recId := ((splitOnChar '/' routePath).getLast?).getD ""
      sendOf (handleDeleteMemory db recId env.now) db fun db2 => db2
    else if isHealthCheck then (⟨200, none⟩, db)
    else (⟨404, some "Not found"⟩, db)

/-! ## General lemmas -/

theorem data_asString (l : List Char) : (l.asString).data = l :=
  List.toList_asString l

theorem jsTrim_idem (s : String) : jsTrim (jsTrim s) = jsTrim s := by
  unfold jsTrim
  rw [data_asString, List.asString_inj]
  have hdrop : (List.rdropWhile jsWS (s.data.dropWhile jsWS)).dropWhile jsWS
      = List.rdropWhile jsWS (s.data.dropWhile jsWS) := by
    rcases hx : List.rdropWhile jsWS (s.data.dropWhile jsWS) with _ | ⟨x, xs⟩
    · simp
    · have hpre : x :: xs <+: s.data.dropWhile jsWS :=
        hx ▸ List.rdropWhile_prefix jsWS (s.data.dropWhile jsWS)
      obtain ⟨t, ht⟩ := hpre
      have eq1 : s.data.dropWhile jsWS = x :: (xs ++ t) := ht.symm
      have hne : s.data.dropWhile jsWS ≠ [] := by rw [eq1]; simp
      have hx0 : ¬ jsWS x := by
        have h2 := List.head_dropWhile_not jsWS s.data hne
        rw [show (s.data.dropWhile jsWS).head hne = x from by simp [eq1]] at h2
        simp [h2]
      rw [List.dropWhile_cons_of_neg hx0]
  rw [hdrop, List.rdropWhile_idempotent]

/-! ## C4: the containment score -/

/-- The score described by the spec's words: the fraction of *distinct* query
tokens present in the document's token set (for comparison with the
implementation's `calculateScore`, which counts occurrences). -/
def specDistinctScore (queryTokens docTokens : List String) : ℚ :=
  if queryTokens.length = 0 ∨ docTokens.length = 0 then 0
  else
    ((queryTokens.dedup.countP fun t => docTokens.contains t : Nat) : ℚ) /
      (queryTokens.dedup.length : ℚ)

/-- C4, counterexample: on query tokens `["aaa", "aaa", "bbb"]` against the
document token set `{"aaa"}` the implementation returns `2/3` — the fraction
of query-token *occurrences* — not the distinct-token fraction `1/2`, and
removing the duplicate occurrence changes the result, contradicting the
claim that duplicates do not change the score. -/
theorem calculateScore_distinct_counterexample :
    calculateScore ["aaa", "aaa", "bbb"] ["aaa"] = 2 / 3 ∧
    specDistinctScore ["aaa", "aaa", "bbb"] ["aaa"] = 1 / 2 ∧
    calculateScore ["aaa", "aaa", "bbb"] ["aaa"]
      ≠ calculateScore ["aaa", "bbb"] ["aaa"] := by
  refine ⟨?_, ?_, ?_⟩
  · simp +decide [calculateScore, List.countP, List.countP.go]
  · simp +decide [specDistinctScore, List.countP, List.countP.go,
      List.dedup_cons_of_mem, List.dedup_cons_of_not_mem]
  · simp +decide [calculateScore, List.countP, List.countP.go]
    norm_num

/-- C4, amended: `calculateScore` returns the fraction of query-token
*occurrences* present in the document's token set; it lies in `[0, 1]` and is
`0` whenever either token sequence is empty.  (Duplicate query tokens *do*
change the score.) -/
theorem calculateScore_occurrence_fraction (q d : List String) :
    0 ≤ calculateScore q d ∧ calculateScore q d ≤ 1 ∧
    calculateScore [] d = 0 ∧ calculateScore q [] = 0 ∧
    (q ≠ [] → d ≠ [] →
      calculateScore q d
        = ((q.countP fun t => d.contains t : Nat) : ℚ) / (q.length : ℚ)) := by
  have hcount : q.countP (fun t => d.contains t) ≤ q.length :=
    List.countP_le_length _
  refine ⟨?_, ?_, ?_, ?_, ?_⟩
  · unfold calculateScore
    split
    · exact le_refl 0
    · positivity
  · unfold calculateScore
    split
    · exact zero_le_one
    · next h =>
      have hq : 0 < q.length := by
        rcases Nat.eq_zero_or_pos q.length with h0 | h1
        · exact absurd (Or.inl h0) h
        · exact h1
      rw [div_le_one (by exact_mod_cast hq)]
      exact_mod_cast hcount
  · simp [calculateScore]
  · simp [calculateScore]
  · intro hq hd
    unfold calculateScore
    rw [if_neg]
    simp only [not_or]
    exact ⟨by simpa using hq, by simpa using hd⟩

/-- Witness for C4's amended theorem at concrete token lists. -/
theorem calculateScore_occurrence_fraction_witness :
    calculateScore ["aaa", "bbb"] ["aaa"]
      = ((["aaa", "bbb"].countP fun t => ["aaa"].contains t : Nat) : ℚ) /
        ((["aaa", "bbb"].length : Nat) : ℚ) :=
  (calculateScore_occurrence_fraction ["aaa", "bbb"] ["aaa"]).2.2.2.2
    (by decide) (by decide)

/-! ## C8: listing -/

/-- The projection `handleListMemories` applies to each record. -/
def listedOf (m : MemoryRecord) : ListedMemory :=
  ⟨m.id, m.content, m.title, m.metadata, m.createdAt, m.updatedAt⟩

/-- The non-deleted records of a tag, in insertion order. -/
def nonDeleted (db : DB) (tag : String) : List MemoryRecord :=
  (getTag db tag).filter fun m => !m.deleted

theorem jsSliceFrom_neg (l : List α) (n : Int) (hn : 1 ≤ n) :
    jsSliceFrom l (-n) = l.drop (l.length - n.toNat) := by
  simp only [jsSliceFrom]
  rw [if_pos (by omega : -n < (0 : Int))]
  congr 1
  omega

/-- C8, counterexample: with `limit = 0` the JS `slice(-0)` is `slice(0)`, so
`list` returns every non-deleted record of the tag instead of at most 0. -/
theorem handleListMemories_limit_zero_counterexample :
    (handleListMemories ⟨[("t", [⟨"a", "hello", none, [], 0, 0, false⟩])]⟩
        { containerTags := some (.inl "t"), limit := some 0 }).length = 1 ∧
    ¬ ((1 : Int) ≤ 0) := by
  refine ⟨by decide, by decide⟩

/-- C8, amended: for every *positive* requested limit, `list` returns the most
recent `limit` non-deleted records of the tag, newest first — at most `limit`
records, each the projection of a non-deleted stored record.  (With
`limit = 0` the JS `slice(-0)` returns all non-deleted records, and a negative
limit drops records from the front instead.) -/
theorem handleListMemories_spec (db : DB) (body : ReqBody)
    (hlim : 1 ≤ body.limit.getD 20) :
    (handleListMemories db body).length ≤ (body.limit.getD 20).toNat ∧
    handleListMemories db body
      = ((nonDeleted db (listTagOf body.containerTags)).drop
          ((nonDeleted db (listTagOf body.containerTags)).length
            - (body.limit.getD 20).toNat)).reverse.map listedOf ∧
    ∀ x ∈ handleListMemories db body,
      ∃ m ∈ getTag db (listTagOf body.containerTags),
        m.deleted = false ∧ x = listedOf m := by
  have heq : handleListMemories db body
      = ((nonDeleted db (listTagOf body.containerTags)).drop
          ((nonDeleted db (listTagOf body.containerTags)).length
            - (body.limit.getD 20).toNat)).reverse.map listedOf := by
    simp only [handleListMemories, nonDeleted, listedOf]
    rw [jsSliceFrom_neg _ _ hlim]
    rfl
  refine ⟨?_, heq, ?_⟩
  · rw [heq]
    simp only [List.length_map, List.length_reverse, List.length_drop]
    omega
  · intro x hx
    rw [heq] at hx
    simp only [List.mem_map, List.mem_reverse] at hx
    obtain ⟨m, hm, rfl⟩ := hx
    have hm2 : m ∈ nonDeleted db (listTagOf body.containerTags) :=
      List.mem_of_mem_drop hm
    have hm3 := List.mem_filter.mp hm2
    exact ⟨m, hm3.1, by simpa using hm3.2, rfl⟩

/-- Witness for C8's amended theorem: a two-record store listed with limit 1
returns exactly the newest record. -/
theorem handleListMemories_spec_witness :
    (handleListMemories
        ⟨[("t", [⟨"a", "one", none, [], 0, 0, false⟩,
                 ⟨"b", "two", none, [], 1, 1, false⟩])]⟩
        { containerTags := some (.inl "t"), limit := some 1 }).length
        ≤ (((some (1 : Int)).getD 20)).toNat ∧
    handleListMemories
        ⟨[("t", [⟨"a", "one", none, [], 0, 0, false⟩,
                 ⟨"b", "two", none, [], 1, 1, false⟩])]⟩
        { containerTags := some (.inl "t"), limit := some 1 }
      = ((nonDeleted
            ⟨[("t", [⟨"a", "one", none, [], 0, 0, false⟩,
                     ⟨"b", "two", none, [], 1, 1, false⟩])]⟩
            (listTagOf (some (.inl "t")))).drop
          ((nonDeleted
            ⟨[("t", [⟨"a", "one", none, [], 0, 0, false⟩,
                     ⟨"b", "two", none, [], 1, 1, false⟩])]⟩
            (listTagOf (some (.inl "t")))).length
            - (((some (1 : Int)).getD 20)).toNat)).reverse.map listedOf ∧
    ∀ x ∈ handleListMemories
        ⟨[("t", [⟨"a", "one", none, [], 0, 0, false⟩,
                 ⟨"b", "two", none, [], 1, 1, false⟩])]⟩
        { containerTags := some (.inl "t"), limit := some 1 },
      ∃ m ∈ getTag
          ⟨[("t", [⟨"a", "one", none, [], 0, 0, false⟩,
                   ⟨"b", "two", none, [], 1, 1, false⟩])]⟩
          (listTagOf (some (.inl "t"))),
        m.deleted = false ∧ x = listedOf m :=
  handleListMemories_spec
    ⟨[("t", [⟨"a", "one", none, [], 0, 0, false⟩,
             ⟨"b", "two", none, [], 1, 1, false⟩])]⟩
    { containerTags := some (.inl "t"), limit := some 1 } (by decide)

/-! ## C2: soft delete -/

theorem markFirst_eq_none_iff (l : List MemoryRecord) (id : String) (now : Nat) :
    markFirst l id now = none ↔ ∀ m ∈ l, m.id ≠ id := by
  induction l with
  | nil => simp [markFirst]
  | cons m rest ih =>
    by_cases h : m.id = id
    · simp [markFirst, h]
    · simp [markFirst, h, Option.map_eq_none', ih]

theorem markFirst_eq_some (l l2 : List MemoryRecord) (id : String) (now : Nat)
    (h : markFirst l id now = some l2) :
    ∃ l1 m l3, l = l1 ++ m :: l3 ∧ (∀ x ∈ l1, x.id ≠ id) ∧ m.id = id ∧
      l2 = l1 ++ { m with deleted := true, updatedAt := now } :: l3 := by
  induction l generalizing l2 with
  | nil => simp [markFirst] at h
  | cons a rest ih =>
    by_cases ha : a.id = id
    · rw [markFirst, if_pos ha] at h
      refine ⟨[], a, rest, rfl, by simp, ha, ?_⟩
      simpa using h.symm
    · rw [markFirst, if_neg ha] at h
      rcases hm : markFirst rest id now with _ | l2'
      · rw [hm] at h; simp at h
      · rw [hm] at h
        simp only [Option.map_some', Option.some.injEq] at h
        obtain ⟨l1, m, l3, e1, e2, e3, e4⟩ := ih l2' hm
        refine ⟨a :: l1, m, l3, by simp [e1], ?_, e3, ?_⟩
        · intro x hx
          rcases List.mem_cons.mp hx with rfl | hx2
          · exact ha
          · exact e2 x hx2
        · rw [← h, e4]; simp

theorem deleteInTags_eq_none_iff (tags : List (String × List MemoryRecord))
    (id : String) (now : Nat) :
    deleteInTags tags id now = none ↔ ∀ p ∈ tags, ∀ m ∈ p.2, m.id ≠ id := by
  induction tags with
  | nil => simp [deleteInTags]
  | cons p rest ih =>
    obtain ⟨t, l⟩ := p
    rcases hm : markFirst l id now with _ | l2
    · have hl := (markFirst_eq_none_iff l id now).mp hm
      simp only [deleteInTags, hm, Option.map_eq_none']
      rw [ih]
      constructor
      · intro hall p hp
        rcases List.mem_cons.mp hp with rfl | hp2
        · exact hl
        · exact hall p hp2
      · intro hall p hp
        exact hall p (List.mem_cons_of_mem _ hp)
    · have hne : ¬ ∀ m ∈ l, m.id ≠ id := by
        intro hall
        rw [(markFirst_eq_none_iff l id now).mpr hall] at hm
        cases hm
      simp only [deleteInTags, hm]
      constructor
      · intro hc; cases hc
      · intro hall
        exact absurd (fun m hm2 => hall (t, l) (by simp) m hm2) hne

theorem deleteInTags_eq_some (tags tags2 : List (String × List MemoryRecord))
    (id : String) (now : Nat) (h : deleteInTags tags id now = some tags2) :
    ∃ pre t l1 m l3 post,
      tags = pre ++ (t, l1 ++ m :: l3) :: post ∧
      (∀ p ∈ pre, ∀ x ∈ p.2, x.id ≠ id) ∧ (∀ x ∈ l1, x.id ≠ id) ∧ m.id = id ∧
      tags2 = pre ++ (t, l1 ++ { m with deleted := true, updatedAt := now } :: l3)
        :: post := by
  induction tags generalizing tags2 with
  | nil => simp [deleteInTags] at h
  | cons p rest ih =>
    obtain ⟨t, l⟩ := p
    rcases hm : markFirst l id now with _ | l2
    · rw [deleteInTags, hm] at h
      rcases hd : deleteInTags rest id now with _ | rest2
      · rw [hd] at h; simp at h
      · rw [hd] at h
        simp only [Option.map_some', Option.some.injEq] at h
        obtain ⟨pre, t', l1, m, l3, post, e1, e2, e3, e4, e5⟩ := ih rest2 hd
        refine ⟨(t, l) :: pre, t', l1, m, l3, post, by simp [e1], ?_, e3, e4, ?_⟩
        · intro p hp x hx
          rcases List.mem_cons.mp hp with rfl | hp2
          · exact (markFirst_eq_none_iff l id now).mp hm x hx
          · exact e2 p hp2 x hx
        · rw [← h, e5]; simp
    · rw [deleteInTags, hm] at h
      simp only [Option.some.injEq] at h
      obtain ⟨l1, m, l3, e1, e2, e3, e4⟩ := markFirst_eq_some l l2 id now hm
      exact ⟨[], t, l1, m, l3, rest, by rw [← e1]; rfl, by simp, e2, e3,
        by rw [← h, e4]; rfl⟩

/-- C2, counterexample: `handleDeleteMemory` does **not** skip already-deleted
records — `find(m => m.id === id)` has no `!m.deleted` test — so deleting an
already-soft-deleted record succeeds (and re-stamps `updatedAt`) instead of
returning the claimed 404. -/
theorem handleDeleteMemory_already_deleted_counterexample :
    handleDeleteMemory ⟨[("t", [⟨"x", "hi", none, [], 0, 0, true⟩])]⟩ "x" 5
      = .ok ⟨[("t", [⟨"x", "hi", none, [], 0, 5, true⟩])]⟩ := by
  rfl

/-- C2, amended: `softDelete(id)` returns `404 Memory not found` iff **no**
record (deleted or not) with that id exists in any tag; otherwise it succeeds,
marking exactly the first matching record (in tag order, then insertion order)
deleted and stamping its `updatedAt`, leaving everything else unchanged. -/
theorem handleDeleteMemory_spec (db : DB) (id : String) (now : Nat) :
    (handleDeleteMemory db id now = .error ("Memory not found", 404) ↔
      ∀ p ∈ db.memories, ∀ m ∈ p.2, m.id ≠ id) ∧
    ∀ db2, handleDeleteMemory db id now = .ok db2 →
      ∃ pre t l1 m l3 post,
        db.memories = pre ++ (t, l1 ++ m :: l3) :: post ∧
        (∀ p ∈ pre, ∀ x ∈ p.2, x.id ≠ id) ∧ (∀ x ∈ l1, x.id ≠ id) ∧
        m.id = id ∧
        db2.memories
          = pre ++ (t, l1 ++ { m with deleted := true, updatedAt := now } :: l3)
            :: post := by
  constructor
  · rw [handleDeleteMemory]
    rcases hd : deleteInTags db.memories id now with _ | tags2
    · simpa using (deleteInTags_eq_none_iff db.memories id now).mp hd
    · constructor
      · intro hc; cases hc
      · intro hall
        rw [(deleteInTags_eq_none_iff db.memories id now).mpr hall] at hd
        cases hd
  · intro db2 h2
    rw [handleDeleteMemory] at h2
    rcases hd : deleteInTags db.memories id now with _ | tags2
    · rw [hd] at h2; cases h2
    · rw [hd] at h2
      simp only [Except.ok.injEq] at h2
      obtain ⟨pre, t, l1, m, l3, post, e1, e2, e3, e4, e5⟩ :=
        deleteInTags_eq_some db.memories tags2 id now hd
      exact ⟨pre, t, l1, m, l3, post, e1, e2, e3, e4, by rw [← h2, e5]⟩

/-- Witness for C2's amended theorem: deleting the sole (non-deleted) record
of a one-record store. -/
theorem handleDeleteMemory_spec_witness :
    ∃ pre t l1 m l3 post,
      (DB.mk [("t", [⟨"x", "hi", none, [], 0, 0, false⟩])]).memories
        = pre ++ (t, l1 ++ m :: l3) :: post ∧
      (∀ p ∈ pre, ∀ x ∈ p.2, x.id ≠ "x") ∧ (∀ x ∈ l1, x.id ≠ "x") ∧
      m.id = "x" ∧
      (DB.mk [("t", [⟨"x", "hi", none, [], 0, 7, true⟩])]).memories
        = pre ++ (t, l1 ++ { m with deleted := true, updatedAt := 7 } :: l3)
          :: post :=
  (handleDeleteMemory_spec ⟨[("t", [⟨"x", "hi", none, [], 0, 0, false⟩])]⟩
      "x" 7).2
    ⟨[("t", [⟨"x", "hi", none, [], 0, 7, true⟩])]⟩ (by rfl)

/-! ## C7: add then list -/

theorem lookup_updateTag_self (l : List (String × List MemoryRecord))
    (tag : String) (v : List MemoryRecord) :
    (updateTag l tag v).lookup tag = some v := by
  induction l with
  | nil => simp [updateTag]
  | cons p rest ih =>
    obtain ⟨t, w⟩ := p
    by_cases h : t = tag
    · subst h; simp [updateTag, List.lookup]
    · simp only [updateTag, if_neg h, List.lookup]
      rw [show (tag == t) = false from beq_eq_false_iff_ne.mpr (Ne.symm h)]
      exact ih

theorem getTag_setTag_self (db : DB) (tag : String) (v : List MemoryRecord) :
    getTag (setTag db tag v) tag = v := by
  simp [getTag, setTag, lookup_updateTag_self]

theorem jsOrDefault_default_ne (o : Option String) :
    jsOrDefault o "default" ≠ "" := by
  rcases o with _ | s
  · simp [jsOrDefault]
  · simp only [jsOrDefault]
    split
    · simp
    · assumption

/-- C7, confirmed: a successful `add` appends a record whose `content` is the
added content unchanged, with `deleted = false` and `createdAt = updatedAt`,
and an immediate `list` on the same tag (any positive limit) returns that
record first. -/
theorem handleAdd_then_list (db : DB) (body : ReqBody) (freshId : String)
    (now : Nat) (content : String) (db2 : DB) (rid : String)
    (hc : body.content = some content) (hne : content ≠ "")
    (h : handleAdd db body freshId now = .ok (db2, rid)) :
    ∃ r : MemoryRecord,
      getTag db2 (jsOrDefault body.containerTag "default")
        = getTag db (jsOrDefault body.containerTag "default") ++ [r] ∧
      r.id = rid ∧ r.content = content ∧ r.deleted = false ∧
      r.createdAt = r.updatedAt ∧
      ∀ lim : Int, 1 ≤ lim →
        (handleListMemories db2
            { containerTags :=
                some (.inl (jsOrDefault body.containerTag "default")),
              limit := some lim }).head?
          = some (listedOf r) := by
  rw [handleAdd, hc] at h
  simp only [if_neg hne, Except.ok.injEq, Prod.mk.injEq] at h
  obtain ⟨hdb2, hrid⟩ := h
  set tag := jsOrDefault body.containerTag "default" with htag
  set r : MemoryRecord :=
    { id := jsOrDefault body.customId freshId, content := content,
      title := extractTitle content, metadata := body.metadata.getD [],
      createdAt := now, updatedAt := now, deleted := false } with hr
  have hget : getTag db2 tag = getTag db tag ++ [r] := by
    rw [← hdb2]; exact getTag_setTag_self db tag _
  refine ⟨r, hget, hrid ▸ rfl, rfl, rfl, rfl, ?_⟩
  intro lim hlim
  have htagOf : listTagOf (some (.inl tag)) = tag := by
    simp only [listTagOf, jsOrDefault]
    rw [if_neg (jsOrDefault_default_ne body.containerTag)]
  simp only [handleListMemories, htagOf, Option.getD_some]
  rw [hget]
  have hfil : (getTag db tag ++ [r]).filter (fun m => !m.deleted)
      = (getTag db tag).filter (fun m => !m.deleted) ++ [r] := by
    rw [List.filter_append]
    simp [hr]
  rw [hfil]
  rw [jsSliceFrom_neg _ _ hlim]
  set A := (getTag db tag).filter (fun m => !m.deleted) with hA
  have hdrop : ((A ++ [r]).drop ((A ++ [r]).length - lim.toNat))
      = A.drop ((A ++ [r]).length - lim.toNat) ++ [r] := by
    apply List.drop_append_of_le_length
    simp only [List.length_append, List.length_singleton]
    omega
  rw [hdrop]
  simp [List.head?_map, listedOf]

/-- Witness for C7's theorem: add `"hello"` to an empty store under tag
`"t"`. -/
theorem handleAdd_then_list_witness :
    ∃ r : MemoryRecord,
      getTag
          (setTag ⟨[]⟩ "t"
            (getTag ⟨[]⟩ "t" ++
              [{ id := "f1", content := "hello", title := extractTitle "hello",
                 metadata := [], createdAt := 7, updatedAt := 7,
                 deleted := false }]))
          (jsOrDefault (some "t") "default")
        = getTag ⟨[]⟩ (jsOrDefault (some "t") "default") ++ [r] ∧
      r.id = "f1" ∧ r.content = "hello" ∧ r.deleted = false ∧
      r.createdAt = r.updatedAt ∧
      ∀ lim : Int, 1 ≤ lim →
        (handleListMemories
            (setTag ⟨[]⟩ "t"
              (getTag ⟨[]⟩ "t" ++
                [{ id := "f1", content := "hello", title := extractTitle "hello",
                   metadata := [], createdAt := 7, updatedAt := 7,
                   deleted := false }]))
            { containerTags :=
                some (.inl (jsOrDefault (some "t") "default")),
              limit := some lim }).head?
          = some (listedOf r) :=
  handleAdd_then_list ⟨[]⟩ { content := some "hello", containerTag := some "t" }
    "f1" 7 "hello"
    (setTag ⟨[]⟩ "t"
      (getTag ⟨[]⟩ "t" ++
        [{ id := "f1", content := "hello", title := extractTitle "hello",
           metadata := [], createdAt := 7, updatedAt := 7, deleted := false }]))
    "f1" rfl (by decide) (by rfl)

/-! ## C3: soft-deleted ids -/

/-- `m` is one of the records stored somewhere in the database. -/
def recMem (db : DB) (m : MemoryRecord) : Prop :=
  ∃ p ∈ db.memories, m ∈ p.2

/-- Every stored record carrying this id is marked deleted. -/
def idAllDeleted (db : DB) (id : String) : Prop :=
  ∀ m : MemoryRecord, recMem db m → m.id = id → m.deleted = true

/-- The per-tag id sequences — what "no record is ever physically removed"
preserves. -/
def shape (db : DB) : List (String × List String) :=
  db.memories.map fun p => (p.1, p.2.map MemoryRecord.id)

/-- Number of stored records (deleted or not) carrying this id. -/
def countIds (db : DB) (id : String) : Nat :=
  (db.memories.map fun p => p.2.countP fun m => m.id = id).sum

theorem mem_of_lookup_eq_some (l : List (String × List MemoryRecord))
    (k : String) (v : List MemoryRecord) (h : l.lookup k = some v) :
    (k, v) ∈ l := by
  induction l with
  | nil => cases h
  | cons p rest ih =>
    obtain ⟨t, w⟩ := p
    by_cases hk : k = t
    · subst hk
      rw [List.lookup] at h
      simp only [beq_self_eq_true] at h
      simp only [Option.some.injEq] at h
      subst h
      exact List.mem_cons_self _ _
    · rw [List.lookup] at h
      rw [show (k == t) = false from beq_eq_false_iff_ne.mpr hk] at h
      exact List.mem_cons_of_mem _ (ih h)

theorem recMem_of_getTag {db : DB} {tag : String} {m : MemoryRecord}
    (h : m ∈ getTag db tag) : recMem db m := by
  unfold getTag at h
  rcases hl : db.memories.lookup tag with _ | v
  · rw [hl] at h; cases h
  · rw [hl] at h
    exact ⟨(tag, v), mem_of_lookup_eq_some _ _ _ hl, h⟩

theorem mem_updateTag (ms : List (String × List MemoryRecord)) (tag : String)
    (l : List MemoryRecord) (p : String × List MemoryRecord)
    (h : p ∈ updateTag ms tag l) : p ∈ ms ∨ p = (tag, l) := by
  induction ms with
  | nil => simp [updateTag] at h; simp [h]
  | cons q rest ih =>
    obtain ⟨t, v⟩ := q
    by_cases ht : t = tag
    · subst ht
      simp only [updateTag, if_pos rfl] at h
      rcases List.mem_cons.mp h with rfl | h2
      · exact Or.inr rfl
      · exact Or.inl (List.mem_cons_of_mem _ h2)
    · simp only [updateTag, if_neg ht] at h
      rcases List.mem_cons.mp h with rfl | h2
      · exact Or.inl (List.mem_cons_self _ _)
      · rcases ih h2 with h3 | h3
        · exact Or.inl (List.mem_cons_of_mem _ h3)
        · exact Or.inr h3

theorem recMem_setTag {db : DB} {tag : String} {l : List MemoryRecord}
    {x : MemoryRecord} (h : recMem (setTag db tag l) x) :
    recMem db x ∨ x ∈ l := by
  obtain ⟨p, hp, hx⟩ := h
  rcases mem_updateTag db.memories tag l p hp with h2 | rfl
  · exact Or.inl ⟨p, h2, hx⟩
  · exact Or.inr hx

/-- Records returned by `handleListMemories` are the projections of stored,
non-deleted records of the listed tag. -/
theorem mem_handleListMemories {db : DB} {body : ReqBody} {x : ListedMemory}
    (h : x ∈ handleListMemories db body) :
    ∃ m, m ∈ getTag db (listTagOf body.containerTags) ∧ m.deleted = false ∧
      x = listedOf m := by
  simp only [handleListMemories, jsSliceFrom, List.mem_map,
    List.mem_reverse] at h
  obtain ⟨m, hm, rfl⟩ := h
  have hm2 := List.mem_of_mem_drop hm
  have hm3 := List.mem_filter.mp hm2
  exact ⟨m, hm3.1, by simpa using hm3.2, rfl⟩

/-- Records underlying `searchMemories` results are stored, non-deleted
records of the searched tag. -/
theorem mem_searchMemories_results {db : DB} {tag q : String} {lim : Int}
    {r : SearchResult} (h : r ∈ (searchMemories db tag q lim).results) :
    ∃ m, m ∈ getTag db tag ∧ m.deleted = false ∧ r.id = m.id := by
  rw [searchMemories] at h
  split at h
  · simp at h
  · simp only [List.mem_map] at h
    obtain ⟨p, hp, rfl⟩ := h
    have hp2 : p ∈ List.insertionSort scoreGE
        ((getTag db tag).filterMap fun m =>
          if m.deleted then none
          else
            if 0 < calculateScore (tokenize q) (tokenize m.content) then
              some (m, calculateScore (tokenize q) (tokenize m.content))
            else none) := by
      simp only [jsSliceEnd] at hp
      exact List.mem_of_mem_take hp
    rw [List.mem_insertionSort] at hp2
    rw [List.mem_filterMap] at hp2
    obtain ⟨m, hm, hfm⟩ := hp2
    by_cases hd : m.deleted
    · rw [if_pos hd] at hfm; cases hfm
    · rw [if_neg hd] at hfm
      split at hfm
      · simp only [Option.some.injEq] at hfm
        subst hfm
        exact ⟨m, hm, by simpa using hd, rfl⟩
      · cases hfm

/-- C3, counterexample: `handleAdd` never checks a caller-supplied `customId`
against existing (even soft-deleted) records, so after a successful
`softDelete("x")` a subsequent `add` with `customId = "x"` creates a second,
live record with the same id, which `list` then returns. -/
theorem softDelete_id_reuse_counterexample :
    handleAdd ⟨[]⟩
        { content := some "hello there", containerTag := some "t",
          customId := some "x" } "f1" 0
      = .ok (⟨[("t", [⟨"x", "hello there", some "hello there", [], 0, 0,
          false⟩])]⟩, "x") ∧
    handleDeleteMemory
        ⟨[("t", [⟨"x", "hello there", some "hello there", [], 0, 0, false⟩])]⟩
        "x" 1
      = .ok ⟨[("t", [⟨"x", "hello there", some "hello there", [], 0, 1,
          true⟩])]⟩ ∧
    handleAdd
        ⟨[("t", [⟨"x", "hello there", some "hello there", [], 0, 1, true⟩])]⟩
        { content := some "hello again", containerTag := some "t",
          customId := some "x" } "f2" 2
      = .ok (⟨[("t", [⟨"x", "hello there", some "hello there", [], 0, 1, true⟩,
                      ⟨"x", "hello again", some "hello again", [], 2, 2,
                        false⟩])]⟩, "x") ∧
    "x" ∈ (handleListMemories
        ⟨[("t", [⟨"x", "hello there", some "hello there", [], 0, 1, true⟩,
                 ⟨"x", "hello again", some "hello again", [], 2, 2, false⟩])]⟩
        { containerTags := some (.inl "t") }).map ListedMemory.id :=
  ⟨by rfl, by rfl, by rfl, by decide⟩

/-- C3, amended: a successful `softDelete` never physically removes records
(per-tag id sequences are unchanged); if at most one stored record carries the
id, a successful `softDelete(id)` leaves every record with that id deleted;
and in that state `list` and `search` never return the id, and the state is
preserved by any further `softDelete` and by any `add` that neither supplies
`customId = id` nor draws `id` as its generated fresh id.  (An `add` with
`customId = id` can re-create the id — the code does not prevent reuse.) -/
theorem softDelete_id_invariants (id : String) :
    (∀ db db2 rid now, handleDeleteMemory db rid now = .ok db2 →
      shape db2 = shape db) ∧
    (∀ db db2 now, countIds db id ≤ 1 →
      handleDeleteMemory db id now = .ok db2 → idAllDeleted db2 id) ∧
    (∀ db, idAllDeleted db id →
      ∀ body, ∀ x ∈ handleListMemories db body, x.id ≠ id) ∧
    (∀ db, idAllDeleted db id →
      ∀ tag q lim, ∀ r ∈ (searchMemories db tag q lim).results, r.id ≠ id) ∧
    (∀ db, idAllDeleted db id →
      ∀ body freshId now db3 rid, handleAdd db body freshId now = .ok (db3, rid) →
        body.customId ≠ some id → freshId ≠ id → idAllDeleted db3 id) ∧
    (∀ db, idAllDeleted db id →
      ∀ rid now db3, handleDeleteMemory db rid now = .ok db3 →
        idAllDeleted db3 id) := by
  have hok : ∀ db db2 rid now, handleDeleteMemory db rid now = .ok db2 →
      ∃ pre t l1 m l3 post,
        db.memories = pre ++ (t, l1 ++ m :: l3) :: post ∧ m.id = rid ∧
        db2.memories = pre ++
          (t, l1 ++ { m with deleted := true, updatedAt := now } :: l3)
          :: post := by
    intro db db2 rid now h
    rw [handleDeleteMemory] at h
    rcases hd : deleteInTags db.memories rid now with _ | tags2
    · rw [hd] at h; cases h
    · rw [hd] at h
      simp only [Except.ok.injEq] at h
      obtain ⟨pre, t, l1, m, l3, post, e1, _, _, e4, e5⟩ :=
        deleteInTags_eq_some db.memories tags2 rid now hd
      exact ⟨pre, t, l1, m, l3, post, e1, e4, by rw [← h]; exact e5⟩
  refine ⟨?_, ?_, ?_, ?_, ?_, ?_⟩
  · intro db db2 rid now h
    obtain ⟨pre, t, l1, m, l3, post, e1, _, e5⟩ := hok db db2 rid now h
    simp [shape, e1, e5]
  · intro db db2 now hcount h
    rw [handleDeleteMemory] at h
    rcases hd : deleteInTags db.memories id now with _ | tags2
    · rw [hd] at h; cases h
    · rw [hd] at h
      simp only [Except.ok.injEq] at h
      obtain ⟨pre, t, l1, m, l3, post, e1, e2, e3, e4, e5⟩ :=
        deleteInTags_eq_some db.memories tags2 id now hd
      have hzero : ((pre.map fun p => p.2.countP fun m2 => m2.id = id).sum = 0)
          ∧ (l1.countP fun m2 => m2.id = id) = 0
          ∧ (l3.countP fun m2 => m2.id = id) = 0
          ∧ ((post.map fun p => p.2.countP fun m2 => m2.id = id).sum = 0) := by
        have := hcount
        rw [countIds, e1] at this
        simp only [List.map_append, List.sum_append, List.map_cons,
          List.sum_cons, List.countP_append, List.countP_cons] at this
        rw [if_pos (by simpa using e4)] at this
        omega
      intro x hx hxid
      obtain ⟨p, hp, hxp⟩ := hx
      rw [← h] at hp
      rw [e5] at hp
      rcases List.mem_append.mp hp with hp2 | hp2
      · exfalso
        have h0 : (p.2.countP fun m2 => m2.id = id) = 0 :=
          List.sum_eq_zero_iff.mp hzero.1 _ (List.mem_map_of_mem _ hp2)
        have := List.countP_eq_zero.mp h0 x hxp
        simp [hxid] at this
      · rcases List.mem_cons.mp hp2 with rfl | hp3
        · simp only at hxp
          rcases List.mem_append.mp hxp with hx1 | hx1
          · exact absurd hxid
              (by simpa using List.countP_eq_zero.mp hzero.2.1 x hx1)
          · rcases List.mem_cons.mp hx1 with rfl | hx2
            · rfl
            · exact absurd hxid
                (by simpa using List.countP_eq_zero.mp hzero.2.2.1 x hx2)
        · exfalso
          have h0 : (p.2.countP fun m2 => m2.id = id) = 0 :=
            List.sum_eq_zero_iff.mp hzero.2.2.2 _ (List.mem_map_of_mem _ hp3)
          have := List.countP_eq_zero.mp h0 x hxp
          simp [hxid] at this
  · intro db hall body x hx
    obtain ⟨m, hm, hdel, rfl⟩ := mem_handleListMemories hx
    intro hxid
    have := hall m (recMem_of_getTag hm) (by simpa [listedOf] using hxid)
    rw [this] at hdel
    cases hdel
  · intro db hall tag q lim r hr
    obtain ⟨m, hm, hdel, hrid⟩ := mem_searchMemories_results hr
    intro hxid
    have := hall m (recMem_of_getTag hm) (by rw [← hrid]; exact hxid)
    rw [this] at hdel
    cases hdel
  · intro db hall body freshId now db3 rid h hcid hfid
    rcases hc : body.content with _ | content
    · rw [handleAdd, hc] at h; cases h
    · rw [handleAdd, hc] at h
      by_cases hne : content = ""
      · subst hne; simp at h
      · simp only [if_neg hne, Except.ok.injEq, Prod.mk.injEq] at h
        obtain ⟨hdb3, _⟩ := h
        intro x hx hxid
        rw [← hdb3] at hx
        rcases recMem_setTag hx with h2 | h2
        · exact hall x h2 hxid
        · rcases List.mem_append.mp h2 with h3 | h3
          · exact hall x (recMem_of_getTag h3) hxid
          · rcases List.mem_cons.mp h3 with rfl | h4
            · exfalso
              simp only at hxid
              rcases hcid2 : body.customId with _ | cid
              · rw [hcid2] at hxid
                simp [jsOrDefault] at hxid
                exact hfid hxid
              · rw [hcid2] at hxid
                simp only [jsOrDefault] at hxid
                by_cases hce : cid = ""
                · rw [if_pos hce] at hxid
                  exact hfid hxid
                · rw [if_neg hce] at hxid
                  rw [hcid2, hxid] at hcid
                  exact hcid rfl
            · cases h4
  · intro db hall rid now db3 h
    obtain ⟨pre, t, l1, m, l3, post, e1, _, e5⟩ := hok db db3 rid now h
    intro x hx hxid
    obtain ⟨p, hp, hxp⟩ := hx
    rw [e5] at hp
    rcases List.mem_append.mp hp with hp2 | hp2
    · exact hall x ⟨p, (by rw [e1]; exact List.mem_append_left _ hp2), hxp⟩ hxid
    · rcases List.mem_cons.mp hp2 with rfl | hp3
      · simp only at hxp
        rcases List.mem_append.mp hxp with hx1 | hx1
        · exact hall x
            ⟨(t, l1 ++ m :: l3),
              (by rw [e1]; exact List.mem_append_right _ (List.mem_cons_self _ _)),
              List.mem_append_left _ hx1⟩ hxid
        · rcases List.mem_cons.mp hx1 with rfl | hx2
          · rfl
          · exact hall x
              ⟨(t, l1 ++ m :: l3),
                (by rw [e1]; exact List.mem_append_right _ (List.mem_cons_self _ _)),
                List.mem_append_right _ (List.mem_cons_of_mem _ hx2)⟩ hxid
      · refine hall x ⟨p, ?_, hxp⟩ hxid
        rw [e1]
        exact List.mem_append_right _ (List.mem_cons_of_mem _ hp3)

/-- Witness for C3's amended theorem: soft-deleting the only record with id
`"x"` makes every `"x"` record deleted, preserves the store's shape, and a
subsequent list returns no `"x"`. -/
theorem softDelete_id_invariants_witness :
    shape ⟨[("t", [⟨"x", "hi", none, [], 0, 5, true⟩])]⟩
        = shape ⟨[("t", [⟨"x", "hi", none, [], 0, 0, false⟩])]⟩ ∧
    idAllDeleted ⟨[("t", [⟨"x", "hi", none, [], 0, 5, true⟩])]⟩ "x" ∧
    ∀ body, ∀ y ∈ handleListMemories
        ⟨[("t", [⟨"x", "hi", none, [], 0, 5, true⟩])]⟩ body, y.id ≠ "x" :=
  ⟨(softDelete_id_invariants "x").1
      ⟨[("t", [⟨"x", "hi", none, [], 0, 0, false⟩])]⟩
      ⟨[("t", [⟨"x", "hi", none, [], 0, 5, true⟩])]⟩ "x" 5 (by rfl),
   (softDelete_id_invariants "x").2.1
      ⟨[("t", [⟨"x", "hi", none, [], 0, 0, false⟩])]⟩
      ⟨[("t", [⟨"x", "hi", none, [], 0, 5, true⟩])]⟩ 5 (by decide) (by rfl),
   fun body y hy =>
     (softDelete_id_invariants "x").2.2.1
      ⟨[("t", [⟨"x", "hi", none, [], 0, 5, true⟩])]⟩
      ((softDelete_id_invariants "x").2.1
        ⟨[("t", [⟨"x", "hi", none, [], 0, 0, false⟩])]⟩
        ⟨[("t", [⟨"x", "hi", none, [], 0, 5, true⟩])]⟩ 5 (by decide) (by rfl))
      body y hy⟩

/-! ## C9: profile extraction -/

/-- What `generateProfile` reads: the contents of the most recent 50
non-deleted records of the tag. -/
def profileSource (db : DB) (tag : String) : List String :=
  (jsSliceFrom ((getTag db tag).filter fun m => !m.deleted) (-50)).map
    MemoryRecord.content

theorem addFact_inv {facts : List String}
    (h : facts.Nodup ∧ facts.length ≤ 10 ∧ ∀ p ∈ facts, jsTrim p = p)
    (raw : String) :
    (addFact facts raw).Nodup ∧ (addFact facts raw).length ≤ 10 ∧
      ∀ p ∈ addFact facts raw, jsTrim p = p := by
  obtain ⟨hnd, hlen, htr⟩ := h
  unfold addFact
  split
  · next hc =>
    split
    · exact ⟨hnd, hlen, htr⟩
    · next hmem =>
      refine ⟨?_, ?_, ?_⟩
      · rw [List.nodup_append]
        exact ⟨hnd, List.nodup_singleton _, by simpa using hmem⟩
      · simp only [List.length_append, List.length_singleton]
        omega
      · intro p hp
        rcases List.mem_append.mp hp with hp2 | hp2
        · exact htr p hp2
        · rw [List.mem_singleton.mp hp2]
          exact jsTrim_idem raw
  · exact ⟨hnd, hlen, htr⟩

theorem foldl_addFact_inv (caps : List String) (facts : List String)
    (h : facts.Nodup ∧ facts.length ≤ 10 ∧ ∀ p ∈ facts, jsTrim p = p) :
    (caps.foldl addFact facts).Nodup ∧ (caps.foldl addFact facts).length ≤ 10 ∧
      ∀ p ∈ caps.foldl addFact facts, jsTrim p = p := by
  induction caps generalizing facts with
  | nil => exact h
  | cons c rest ih => exact ih _ (addFact_inv h c)

/-- The per-record fold of `generateProfile`. -/
theorem foldl_profile_inv (sCaps dCaps : String → List String)
    (cs : List String) (st : List String × List String)
    (h1 : st.1.Nodup ∧ st.1.length ≤ 10 ∧ ∀ p ∈ st.1, jsTrim p = p)
    (h2 : st.2.Nodup ∧ st.2.length ≤ 10 ∧ ∀ p ∈ st.2, jsTrim p = p) :
    let out := cs.foldl
      (fun st c => ((sCaps c).foldl addFact st.1, (dCaps c).foldl addFact st.2))
      st
    (out.1.Nodup ∧ out.1.length ≤ 10 ∧ ∀ p ∈ out.1, jsTrim p = p) ∧
    (out.2.Nodup ∧ out.2.length ≤ 10 ∧ ∀ p ∈ out.2, jsTrim p = p) := by
  induction cs generalizing st with
  | nil => exact ⟨h1, h2⟩
  | cons c rest ih =>
    exact ih _ (foldl_addFact_inv _ _ h1) (foldl_addFact_inv _ _ h2)

/-- `generateProfile` factors through `profileSource`. -/
theorem generateProfile_eq_source (sCaps dCaps : String → List String)
    (db : DB) (tag : String) :
    generateProfile sCaps dCaps db tag
      = (if (profileSource db tag).length = 0 then ([], [])
         else (profileSource db tag).foldl
            (fun st c =>
              ((sCaps c).foldl addFact st.1, (dCaps c).foldl addFact st.2))
            ([], [])) := by
  unfold generateProfile profileSource
  rw [List.length_map, List.foldl_map]

/-- C9, confirmed (for every capture function, hence for the regex ones):
profiles are derived only from the most recent 50 non-deleted records'
contents; each of the two lists is duplicate-free, capped at 10 entries, and
contains only trimmed phrases. -/
theorem generateProfile_spec (sCaps dCaps : String → List String) (db : DB)
    (tag : String) :
    (generateProfile sCaps dCaps db tag).1.Nodup ∧
    (generateProfile sCaps dCaps db tag).2.Nodup ∧
    (generateProfile sCaps dCaps db tag).1.length ≤ 10 ∧
    (generateProfile sCaps dCaps db tag).2.length ≤ 10 ∧
    (∀ p ∈ (generateProfile sCaps dCaps db tag).1, jsTrim p = p) ∧
    (∀ p ∈ (generateProfile sCaps dCaps db tag).2, jsTrim p = p) ∧
    ∀ db2, profileSource db tag = profileSource db2 tag →
      generateProfile sCaps dCaps db tag
        = generateProfile sCaps dCaps db2 tag := by
  have base : ([] : List String).Nodup ∧ ([] : List String).length ≤ 10 ∧
      ∀ p ∈ ([] : List String), jsTrim p = p := by simp
  have main := foldl_profile_inv sCaps dCaps (profileSource db tag)
    ([], []) base base
  have hout :
      ((generateProfile sCaps dCaps db tag).1.Nodup ∧
        (generateProfile sCaps dCaps db tag).1.length ≤ 10 ∧
        ∀ p ∈ (generateProfile sCaps dCaps db tag).1, jsTrim p = p) ∧
      ((generateProfile sCaps dCaps db tag).2.Nodup ∧
        (generateProfile sCaps dCaps db tag).2.length ≤ 10 ∧
        ∀ p ∈ (generateProfile sCaps dCaps db tag).2, jsTrim p = p) := by
    rw [generateProfile_eq_source]
    split
    · exact ⟨base, base⟩
    · exact main
  refine ⟨hout.1.1, hout.2.1, hout.1.2.1, hout.2.2.1, hout.1.2.2, hout.2.2.2,
    ?_⟩
  intro db2 hsrc
  rw [generateProfile_eq_source, generateProfile_eq_source, hsrc]

/-- Witness for C9's theorem at a concrete store and capture functions. -/
theorem generateProfile_spec_witness :
    (generateProfile (fun _ => [" lean 4 "]) (fun _ => [])
        ⟨[("t", [⟨"a", "uses lean 4.", none, [], 0, 0, false⟩])]⟩ "t").1.Nodup ∧
    (generateProfile (fun _ => [" lean 4 "]) (fun _ => [])
        ⟨[("t", [⟨"a", "uses lean 4.", none, [], 0, 0, false⟩])]⟩ "t").2.Nodup ∧
    (generateProfile (fun _ => [" lean 4 "]) (fun _ => [])
        ⟨[("t", [⟨"a", "uses lean 4.", none, [], 0, 0, false⟩])]⟩
        "t").1.length ≤ 10 ∧
    (generateProfile (fun _ => [" lean 4 "]) (fun _ => [])
        ⟨[("t", [⟨"a", "uses lean 4.", none, [], 0, 0, false⟩])]⟩
        "t").2.length ≤ 10 ∧
    (∀ p ∈ (generateProfile (fun _ => [" lean 4 "]) (fun _ => [])
        ⟨[("t", [⟨"a", "uses lean 4.", none, [], 0, 0, false⟩])]⟩ "t").1,
      jsTrim p = p) ∧
    (∀ p ∈ (generateProfile (fun _ => [" lean 4 "]) (fun _ => [])
        ⟨[("t", [⟨"a", "uses lean 4.", none, [], 0, 0, false⟩])]⟩ "t").2,
      jsTrim p = p) ∧
    ∀ db2, profileSource
          ⟨[("t", [⟨"a", "uses lean 4.", none, [], 0, 0, false⟩])]⟩ "t"
        = profileSource db2 "t" →
      generateProfile (fun _ => [" lean 4 "]) (fun _ => [])
          ⟨[("t", [⟨"a", "uses lean 4.", none, [], 0, 0, false⟩])]⟩ "t"
        = generateProfile (fun _ => [" lean 4 "]) (fun _ => []) db2 "t" :=
  generateProfile_spec (fun _ => [" lean 4 "]) (fun _ => [])
    ⟨[("t", [⟨"a", "uses lean 4.", none, [], 0, 0, false⟩])]⟩ "t"

/-! ## C1: search bounds, order, normalisation -/

instance : IsTotal (MemoryRecord × ℚ) scoreGE :=
  ⟨fun a b => le_total b.2 a.2⟩

instance : IsTrans (MemoryRecord × ℚ) scoreGE :=
  ⟨fun _ _ _ hab hbc => le_trans hbc hab⟩

theorem searchMemories_props (db : DB) (tag q : String) (lim : Int) :
    (0 ≤ lim → ((searchMemories db tag q lim).results.length : Int) ≤ lim) ∧
    List.Pairwise (fun a b : SearchResult => b.similarity ≤ a.similarity)
      (searchMemories db tag q lim).results ∧
    ∀ r, (searchMemories db tag q lim).results.head? = some r →
      r.similarity = 1 := by
  rw [searchMemories]
  split
  · simp
  · set scored := (getTag db tag).filterMap fun m =>
      if m.deleted then none
      else
        if 0 < calculateScore (tokenize q) (tokenize m.content) then
          some (m, calculateScore (tokenize q) (tokenize m.content))
        else none with hscored
    have hpos : ∀ p ∈ scored, (0 : ℚ) < p.2 := by
      intro p hp
      rw [hscored, List.mem_filterMap] at hp
      obtain ⟨m, _, hfm⟩ := hp
      by_cases hd : m.deleted
      · rw [if_pos hd] at hfm; cases hfm
      · rw [if_neg hd] at hfm
        split at hfm
        · next hsc =>
          simp only [Option.some.injEq] at hfm
          rw [← hfm]
          exact hsc
        · cases hfm
    set sorted := List.insertionSort scoreGE scored with hsorted
    have hsort : List.Pairwise scoreGE sorted :=
      List.sorted_insertionSort scoreGE scored
    have hsub : ∀ p ∈ jsSliceEnd sorted lim, p ∈ scored := by
      intro p hp
      simp only [jsSliceEnd] at hp
      exact (List.mem_insertionSort scoreGE).mp (List.mem_of_mem_take hp)
    have htop : List.Pairwise scoreGE (jsSliceEnd sorted lim) := by
      simp only [jsSliceEnd]
      exact List.Pairwise.sublist (List.take_sublist _ _) hsort
    rcases hc : jsSliceEnd sorted lim with _ | ⟨hd, tl⟩
    · simp [hc]
    · have hhd : (0 : ℚ) < hd.2 :=
        hpos hd (hsub hd (by rw [hc]; exact List.mem_cons_self _ _))
      simp only [hc, List.head?_cons]
      refine ⟨?_, ?_, ?_⟩
      · intro hlim
        have hlen : (hd :: tl).length ≤ lim.toNat := by
          rw [← hc]
          simp only [jsSliceEnd]
          rw [if_neg (by omega : ¬ lim < 0)]
          calc (sorted.take (min lim (sorted.length : Int)).toNat).length
              ≤ (min lim (sorted.length : Int)).toNat := List.length_take_le _ _
            _ ≤ lim.toNat := by omega
        simp only [List.length_cons] at hlen
        simp only [List.length_map, List.length_cons]
        omega
      · rw [List.pairwise_map]
        rw [hc] at htop
        refine htop.imp ?_
        intro a b hab
        simp only []
        exact (div_le_div_iff_of_pos_right hhd).mpr hab
      · intro r hr
        simp only [List.map_cons, List.head?_cons, Option.some.injEq] at hr
        rw [← hr]
        simp only []
        exact div_self (ne_of_gt hhd)

/-- C1, amended: for every *nonnegative* requested limit, a successful search
returns at most `min(limit, 50)` results; the returned similarities are
non-increasing and the first one is exactly 1 whenever the result set is
non-empty.  (With a negative requested limit, `Math.min` and the JS
`slice(0, limit)` instead drop `|limit|` entries from the end of the ranked
list, so the "at most `min(limit, 50)`" bound fails.) -/
theorem handleSearchMemories_spec (db : DB) (body : ReqBody)
    (resp : SearchResponse) (h : handleSearchMemories db body = .ok resp)
    (hlim : 0 ≤ body.limit.getD 10) :
    ((resp.results.length : Int) ≤ min (body.limit.getD 10) 50) ∧
    List.Pairwise (fun a b : SearchResult => b.similarity ≤ a.similarity)
      resp.results ∧
    ∀ r, resp.results.head? = some r → r.similarity = 1 := by
  rcases hq : body.q with _ | q
  · rw [handleSearchMemories, hq] at h; cases h
  · rw [handleSearchMemories, hq] at h
    by_cases hqe : q = ""
    · subst hqe; simp at h
    · simp only [if_neg hqe, Except.ok.injEq] at h
      subst h
      have hp := searchMemories_props db (jsOrDefault body.containerTag "default")
        q (min (body.limit.getD 10) 50)
      exact ⟨hp.1 (by omega), hp.2.1, hp.2.2⟩

/-- Witness for C1's amended theorem (limit 10 on a one-record store). -/
theorem handleSearchMemories_spec_witness :
    (((searchMemories ⟨[("t", [⟨"m1", "alpha one", none, [], 0, 0, false⟩])]⟩
        (jsOrDefault (some "t") "default") "alpha"
        (min ((some (10 : Int)).getD 10) 50)).results.length : Int)
      ≤ min ((some (10 : Int)).getD 10) 50) :=
  (handleSearchMemories_spec
    ⟨[("t", [⟨"m1", "alpha one", none, [], 0, 0, false⟩])]⟩
    { q := some "alpha", containerTag := some "t", limit := some 10 }
    (searchMemories ⟨[("t", [⟨"m1", "alpha one", none, [], 0, 0, false⟩])]⟩
      (jsOrDefault (some "t") "default") "alpha"
      (min ((some (10 : Int)).getD 10) 50))
    rfl (by decide)).1

/-- C1, counterexample: with requested limit `-1` on a store where two records
match, the response holds 1 result, but `min(limit, 50) = -1`, so "at most
`min(limit, 50)` results" fails. -/
theorem handleSearchMemories_negative_limit_counterexample :
    handleSearchMemories
        ⟨[("t", [⟨"m1", "alpha one", none, [], 0, 0, false⟩,
                 ⟨"m2", "alpha two", none, [], 1, 1, false⟩])]⟩
        { q := some "alpha", containerTag := some "t", limit := some (-1) }
      = .ok (searchMemories
          ⟨[("t", [⟨"m1", "alpha one", none, [], 0, 0, false⟩,
                   ⟨"m2", "alpha two", none, [], 1, 1, false⟩])]⟩
          (jsOrDefault (some "t") "default") "alpha"
          (min ((some (-1 : Int)).getD 10) 50)) ∧
    (searchMemories
        ⟨[("t", [⟨"m1", "alpha one", none, [], 0, 0, false⟩,
                 ⟨"m2", "alpha two", none, [], 1, 1, false⟩])]⟩
        (jsOrDefault (some "t") "default") "alpha"
        (min ((some (-1 : Int)).getD 10) 50)).results.length = 1 ∧
    ¬ (((1 : Nat) : Int) ≤ min (-1 : Int) 50) := by
  refine ⟨rfl, ?_, by decide⟩
  simp +decide [searchMemories, getTag, calculateScore, tokenize, jsSliceEnd,
    List.insertionSort, List.orderedInsert, scoreGE, jsOrDefault,
    List.countP, List.countP.go]

/-! ## C5: the three-record scenario -/

/-- C5, counterexample: in the spec's scenario all **three** records score
positively for `"alpha gamma"` (the first two match one of the two query
tokens each, score `1/2` > 0), so the search returns 3 results, not the
claimed 2. -/
theorem search_scenario_counterexample :
    handleAdd ⟨[]⟩ { content := some "alpha beta", containerTag := some "t" }
        "m1" 0
      = .ok (⟨[("t", [⟨"m1", "alpha beta", some "alpha beta", [], 0, 0,
          false⟩])]⟩, "m1") ∧
    handleAdd ⟨[("t", [⟨"m1", "alpha beta", some "alpha beta", [], 0, 0,
          false⟩])]⟩
        { content := some "beta gamma", containerTag := some "t" } "m2" 1
      = .ok (⟨[("t", [⟨"m1", "alpha beta", some "alpha beta", [], 0, 0, false⟩,
                      ⟨"m2", "beta gamma", some "beta gamma", [], 1, 1,
          false⟩])]⟩, "m2") ∧
    handleAdd ⟨[("t", [⟨"m1", "alpha beta", some "alpha beta", [], 0, 0, false⟩,
                       ⟨"m2", "beta gamma", some "beta gamma", [], 1, 1,
          false⟩])]⟩
        { content := some "alpha gamma delta", containerTag := some "t" } "m3" 2
      = .ok (⟨[("t", [⟨"m1", "alpha beta", some "alpha beta", [], 0, 0, false⟩,
                      ⟨"m2", "beta gamma", some "beta gamma", [], 1, 1, false⟩,
                      ⟨"m3", "alpha gamma delta", some "alpha gamma delta", [],
                        2, 2, false⟩])]⟩, "m3") ∧
    (searchMemories
        ⟨[("t", [⟨"m1", "alpha beta", some "alpha beta", [], 0, 0, false⟩,
                 ⟨"m2", "beta gamma", some "beta gamma", [], 1, 1, false⟩,
                 ⟨"m3", "alpha gamma delta", some "alpha gamma delta", [], 2, 2,
                   false⟩])]⟩
        "t" "alpha gamma" 10).results.length = 3 ∧
    ¬ ((searchMemories
        ⟨[("t", [⟨"m1", "alpha beta", some "alpha beta", [], 0, 0, false⟩,
                 ⟨"m2", "beta gamma", some "beta gamma", [], 1, 1, false⟩,
                 ⟨"m3", "alpha gamma delta", some "alpha gamma delta", [], 2, 2,
                   false⟩])]⟩
        "t" "alpha gamma" 10).results.length = 2) := by
  have h3 : (searchMemories
      ⟨[("t", [⟨"m1", "alpha beta", some "alpha beta", [], 0, 0, false⟩,
               ⟨"m2", "beta gamma", some "beta gamma", [], 1, 1, false⟩,
               ⟨"m3", "alpha gamma delta", some "alpha gamma delta", [], 2, 2,
                 false⟩])]⟩
      "t" "alpha gamma" 10).results.length = 3 := by
    simp +decide [searchMemories, getTag, calculateScore, tokenize, jsSliceEnd,
      List.insertionSort, List.orderedInsert, scoreGE,
      List.countP, List.countP.go]
    norm_num [scoreGE, List.orderedInsert, List.take, List.head?, Int.toNat]
  exact ⟨rfl, rfl, rfl, h3, by rw [h3]; decide⟩

/-- C5, amended: after the three adds, `search(t, "alpha gamma", 10)` returns
exactly **3** results: the third record first with similarity 1, then the
first and second with similarity `1/2` each (insertion-order stable tie). -/
theorem search_scenario_amended :
    handleAdd ⟨[]⟩ { content := some "alpha beta", containerTag := some "t" }
        "m1" 0
      = .ok (⟨[("t", [⟨"m1", "alpha beta", some "alpha beta", [], 0, 0,
          false⟩])]⟩, "m1") ∧
    handleAdd ⟨[("t", [⟨"m1", "alpha beta", some "alpha beta", [], 0, 0,
          false⟩])]⟩
        { content := some "beta gamma", containerTag := some "t" } "m2" 1
      = .ok (⟨[("t", [⟨"m1", "alpha beta", some "alpha beta", [], 0, 0, false⟩,
                      ⟨"m2", "beta gamma", some "beta gamma", [], 1, 1,
          false⟩])]⟩, "m2") ∧
    handleAdd ⟨[("t", [⟨"m1", "alpha beta", some "alpha beta", [], 0, 0, false⟩,
                       ⟨"m2", "beta gamma", some "beta gamma", [], 1, 1,
          false⟩])]⟩
        { content := some "alpha gamma delta", containerTag := some "t" } "m3" 2
      = .ok (⟨[("t", [⟨"m1", "alpha beta", some "alpha beta", [], 0, 0, false⟩,
                      ⟨"m2", "beta gamma", some "beta gamma", [], 1, 1, false⟩,
                      ⟨"m3", "alpha gamma delta", some "alpha gamma delta", [],
                        2, 2, false⟩])]⟩, "m3") ∧
    (searchMemories
        ⟨[("t", [⟨"m1", "alpha beta", some "alpha beta", [], 0, 0, false⟩,
                 ⟨"m2", "beta gamma", some "beta gamma", [], 1, 1, false⟩,
                 ⟨"m3", "alpha gamma delta", some "alpha gamma delta", [], 2, 2,
                   false⟩])]⟩
        "t" "alpha gamma" 10).results.map (fun r => (r.id, r.similarity))
      = [("m3", 1), ("m1", 1/2), ("m2", 1/2)] := by
  refine ⟨rfl, rfl, rfl, ?_⟩
  simp +decide [searchMemories, getTag, calculateScore, tokenize, jsSliceEnd,
    List.insertionSort, List.orderedInsert, scoreGE,
    List.countP, List.countP.go]
  norm_num [scoreGE, List.take, List.head?, Int.toNat]

/-! ## C10: the total field -/

theorem scored_length_eq_countP (l : List MemoryRecord) (qt : List String) :
    (l.filterMap fun m =>
        if m.deleted then none
        else
          if 0 < calculateScore qt (tokenize m.content) then
            some (m, calculateScore qt (tokenize m.content))
          else none).length
      = (l.filter fun m => !m.deleted).countP
          (fun m => 0 < calculateScore qt (tokenize m.content)) := by
  induction l with
  | nil => simp
  | cons a rest ih =>
    by_cases hd : a.deleted
    · simp [List.filterMap_cons, hd, ih]
    · by_cases hs : 0 < calculateScore qt (tokenize a.content)
      · simp [List.filterMap_cons, hd, hs, ih, List.countP_cons]
      · simp [List.filterMap_cons, hd, hs, ih, List.countP_cons]

/-- C10, confirmed: the `total` field counts **all** non-deleted records of
the tag with strictly positive score — before truncation to `limit` — and can
strictly exceed the number of returned results (second conjunct: two matching
records, limit 1). -/
theorem searchMemories_total_spec :
    (∀ (db : DB) (tag q : String) (lim : Int),
      (searchMemories db tag q lim).total
        = ((getTag db tag).filter fun m => !m.deleted).countP
            (fun m => 0 < calculateScore (tokenize q) (tokenize m.content))) ∧
    (searchMemories
        ⟨[("t", [⟨"a1", "hello world", none, [], 0, 0, false⟩,
                 ⟨"a2", "hello again", none, [], 1, 1, false⟩])]⟩
        "t" "hello" 1).total = 2 ∧
    (searchMemories
        ⟨[("t", [⟨"a1", "hello world", none, [], 0, 0, false⟩,
                 ⟨"a2", "hello again", none, [], 1, 1, false⟩])]⟩
        "t" "hello" 1).results.length = 1 ∧
    (searchMemories
        ⟨[("t", [⟨"a1", "hello world", none, [], 0, 0, false⟩,
                 ⟨"a2", "hello again", none, [], 1, 1, false⟩])]⟩
        "t" "hello" 1).results.length
      < (searchMemories
        ⟨[("t", [⟨"a1", "hello world", none, [], 0, 0, false⟩,
                 ⟨"a2", "hello again", none, [], 1, 1, false⟩])]⟩
        "t" "hello" 1).total := by
  refine ⟨?_, ?_, ?_, ?_⟩
  · intro db tag q lim
    rw [searchMemories]
    split
    · next h0 =>
      rw [List.length_eq_zero.mp h0]
      simp
    · exact scored_length_eq_countP _ _
  · simp +decide [searchMemories, getTag, calculateScore, tokenize, jsSliceEnd,
      List.insertionSort, List.orderedInsert, scoreGE,
      List.countP, List.countP.go]
  · simp +decide [searchMemories, getTag, calculateScore, tokenize, jsSliceEnd,
      List.insertionSort, List.orderedInsert, scoreGE,
      List.countP, List.countP.go]
  · simp +decide [searchMemories, getTag, calculateScore, tokenize, jsSliceEnd,
      List.insertionSort, List.orderedInsert, scoreGE,
      List.countP, List.countP.go]

/-! ## C6: authentication gate -/

/-- C6, amended: every request that is not a CORS preflight (`OPTIONS`) and
whose path — after stripping an optional `/v1` prefix — is not `/health`
receives `401 {error}` whenever the `Authorization` header is absent or not a
valid `Bearer <stored token>`, with the store untouched, regardless of the
request body.  (An `OPTIONS` request short-circuits to the CORS preflight
response *before* the auth check, so the claim as stated fails for it.) -/
theorem handleRequest_auth_spec (sCaps dCaps : String → List String) (env : Env)
    (db : DB) (req : HttpRequest)
    (hm : req.method ≠ "OPTIONS")
    (hh : stripV1 req.pathname ≠ "/health")
    (ha : validateAuth req.authorization env.authToken = false) :
    handleRequest sCaps dCaps env db req
      = (⟨401, some "Unauthorized - Bearer token required"⟩, db) := by
  have hp : req.pathname ≠ "/health" := fun hcon => hh (by rw [hcon]; rfl)
  simp only [handleRequest, if_neg hm]
  rw [if_pos]
  simp [hh, hp, ha]

/-- Witness for C6's amended theorem: an unauthenticated `POST /add`. -/
theorem handleRequest_auth_spec_witness :
    handleRequest (fun _ => []) (fun _ => []) ⟨"tok", "f", 0⟩ ⟨[]⟩
        { method := "POST", pathname := "/add", origin := none,
          authorization := none, body := none }
      = (⟨401, some "Unauthorized - Bearer token required"⟩, ⟨[]⟩) :=
  handleRequest_auth_spec (fun _ => []) (fun _ => []) ⟨"tok", "f", 0⟩ ⟨[]⟩
    { method := "POST", pathname := "/add", origin := none,
      authorization := none, body := none }
    (by decide) (by decide) (by rfl)

/-- C6, counterexample: an `OPTIONS` request to `/add` with **no**
authorization header is answered by the CORS preflight branch with 200 (for an
allowed localhost origin), not the claimed 401. -/
theorem handleRequest_options_counterexample :
    (handleRequest (fun _ => []) (fun _ => []) ⟨"tok", "f", 0⟩ ⟨[]⟩
        { method := "OPTIONS", pathname := "/add",
          origin := some "http://localhost:3000", authorization := none,
          body := none }).1.status = 200 ∧
    ¬ ((200 : Nat) = 401) :=
  ⟨by rfl, by decide⟩

end Supermemory
